import Mathlib

/-
Verification of the MapD query-plan builder (Planner/Planner.cpp).

The planner (`Planner.Optimizer`) is embedded faithfully from the source.
The Analyzer expression layer is an external collaborator whose header is
not part of this repository; its operations used by the planner are
modelled from the specification (each such definition says so in its doc
comment).  C++ exceptions and assertion failures are embedded as an
explicit error type; undefined behaviour (null dereference, out-of-bounds
vector indexing, reading an uninitialized variable) is embedded as a
distinguished trapping error.
-/

set_option linter.unusedVariables false

namespace Analyzer

/-- Modelled from the spec: a column reference of the Analyzer collaborator,
of which the planner uses the referenced range-table index and the column id,
with deduplication ordered by (table index, column id). -/
structure ColumnVar where
  rte_idx : Nat
  col_id : Nat
deriving DecidableEq, Repr

/-- Modelled from the spec: comparison operators of simple predicates
(single-column-vs-constant comparisons such as column = constant or
column < constant). -/
inductive CmpOp where
  | eq | ne | lt | le | gt | ge
deriving DecidableEq, Repr

/-- Modelled from the spec: the Analyzer expression language, restricted to
the shapes the planner inspects: column references, constants, the star
argument of COUNT, aggregate applications, comparisons, conjunctions, and
position references into a child target list (the result of rewriting). -/
inductive Expr where
  | colvar (rte_idx : Nat) (col_id : Nat)
  | const (v : Int)
  | star
  | aggexpr (kind : Nat) (arg : Expr)
  | cmp (op : CmpOp) (lhs rhs : Expr)
  | conj (lhs rhs : Expr)
  | var (pos : Nat)
deriving DecidableEq, Repr

/-- The strict (table index, column id) lexicographic order used by the
column-variable set. -/
def ColumnVar.lt (a b : ColumnVar) : Prop :=
  a.rte_idx < b.rte_idx ∨ (a.rte_idx = b.rte_idx ∧ a.col_id < b.col_id)

instance (a b : ColumnVar) : Decidable (ColumnVar.lt a b) := by
  unfold ColumnVar.lt; exact inferInstance

/-- Ordered insertion into a duplicate-free sorted list of naturals:
the embedding of insertion into a set of ints ordered by the default order. -/
def natInsert (n : Nat) : List Nat → List Nat
  | [] => [n]
  | x :: xs =>
    if n < x then n :: x :: xs
    else if n = x then x :: xs
    else x :: natInsert n xs

/-- Ordered insertion into a duplicate-free sorted list of column variables:
the embedding of insertion into a set ordered by colvar_comp. -/
def cvInsert (cv : ColumnVar) : List ColumnVar → List ColumnVar
  | [] => [cv]
  | x :: xs =>
    if ColumnVar.lt cv x then cv :: x :: xs
    else if cv = x then x :: xs
    else x :: cvInsert cv xs

/-- Modelled from the spec: collect the set of range-table indices an
expression references, threading an accumulating ordered set. -/
def Expr.collect_rte_idx : Expr → List Nat → List Nat
  | .colvar r _, s => natInsert r s
  | .const _, s => s
  | .star, s => s
  | .aggexpr _ a, s => a.collect_rte_idx s
  | .cmp _ l r, s => r.collect_rte_idx (l.collect_rte_idx s)
  | .conj l r, s => r.collect_rte_idx (l.collect_rte_idx s)
  | .var _, s => s

/-- The set of range-table indices referenced by an expression, sorted
ascending (the first element is the minimum, mirroring set iteration order). -/
def Expr.rte_idx_set (e : Expr) : List Nat := e.collect_rte_idx []

/-- Modelled from the spec: collect the set of column variables an
expression references, threading an accumulating ordered set
(deduplicated by (table index, column id)). -/
def Expr.collect_column_var : Expr → List ColumnVar → List ColumnVar
  | .colvar r c, s => cvInsert ⟨r, c⟩ s
  | .const _, s => s
  | .star, s => s
  | .aggexpr _ a, s => a.collect_column_var s
  | .cmp _ l r, s => r.collect_column_var (l.collect_column_var s)
  | .conj l r, s => r.collect_column_var (l.collect_column_var s)
  | .var _, s => s

/-- All column references of an expression, in syntactic order and with
duplicates: the reference list against which the deduplicated set is judged. -/
def Expr.colvars_raw : Expr → List ColumnVar
  | .colvar r c => [⟨r, c⟩]
  | .const _ => []
  | .star => []
  | .aggexpr _ a => a.colvars_raw
  | .cmp _ l r => l.colvars_raw ++ r.colvars_raw
  | .conj l r => l.colvars_raw ++ r.colvars_raw
  | .var _ => []

/-- The top-level AND-conjuncts of an expression. -/
def Expr.conjuncts : Expr → List Expr
  | .conj l r => l.conjuncts ++ r.conjuncts
  | e => [e]

/-- Modelled from the spec: three-way predicate decomposition.  The
conjuncts of the expression are classified by the number of distinct
range-table indices they reference: exactly one (scan predicates), two or
more (join predicates), zero (constant predicates). -/
def Expr.group_predicates (e : Expr) : List Expr × List Expr × List Expr :=
  (e.conjuncts.filter (fun c => c.rte_idx_set.length == 1),
   e.conjuncts.filter (fun c => 2 ≤ c.rte_idx_set.length),
   e.conjuncts.filter (fun c => c.rte_idx_set.length == 0))

/-- The commuted comparison operator, used when normalizing a
constant-vs-column comparison into column-vs-constant form. -/
def CmpOp.comm : CmpOp → CmpOp
  | .eq => .eq
  | .ne => .ne
  | .lt => .gt
  | .gt => .lt
  | .le => .ge
  | .ge => .le

/-- Modelled from the spec: single-column/constant normalization.  Detects a
column-vs-constant comparison, returning it in column-on-the-left form
together with the referenced range-table index; returns none otherwise. -/
def Expr.normalize_simple_predicate : Expr → Option (Expr × Nat)
  | .cmp op (.colvar r c) (.const v) => some (.cmp op (.colvar r c) (.const v), r)
  | .cmp op (.const v) (.colvar r c) => some (.cmp op.comm (.colvar r c) (.const v), r)
  | _ => none

/-- Deep copy of an expression.  In this pure-value embedding a deep copy
is the value itself; the C++ ownership transfer it effects is not
observable at the value level. -/
def Expr.deep_copy (e : Expr) : Expr := e

/-- A (name, expression) output pair of a plan node or query. -/
structure TargetEntry where
  resname : String
  expr : Expr
deriving DecidableEq, Repr

/-- The position of the first target entry whose expression is the given
expression. -/
def findPos (e : Expr) : List TargetEntry → Option Nat
  | [] => none
  | t :: ts => if t.expr = e then some 0 else (findPos e ts).map (· + 1)

/-- Modelled from the spec: rewrite an expression against a child plan's
target list, turning every column reference into a positional reference to
the child output that produces that column; aggregate applications are kept
and their arguments rewritten. -/
def Expr.rewrite_with_child_targetlist (tlist : List TargetEntry) : Expr → Expr
  | .colvar r c =>
    match findPos (.colvar r c) tlist with
    | some i => .var i
    | none => .colvar r c
  | .const v => .const v
  | .star => .star
  | .aggexpr k a => .aggexpr k (a.rewrite_with_child_targetlist tlist)
  | .cmp op l r =>
    .cmp op (l.rewrite_with_child_targetlist tlist) (r.rewrite_with_child_targetlist tlist)
  | .conj l r =>
    .conj (l.rewrite_with_child_targetlist tlist) (r.rewrite_with_child_targetlist tlist)
  | .var i => .var i

/-- Modelled from the spec: rewrite an expression against a plan's target
list, turning every subexpression that the plan already outputs (a column
reference, or a whole aggregate application) into a positional reference to
that output. -/
def Expr.rewrite_with_targetlist (tlist : List TargetEntry) : Expr → Expr
  | .colvar r c =>
    match findPos (.colvar r c) tlist with
    | some i => .var i
    | none => .colvar r c
  | .const v => .const v
  | .star => .star
  | .aggexpr k a =>
    match findPos (.aggexpr k a) tlist with
    | some i => .var i
    | none => .aggexpr k (a.rewrite_with_targetlist tlist)
  | .cmp op l r =>
    .cmp op (l.rewrite_with_targetlist tlist) (r.rewrite_with_targetlist tlist)
  | .conj l r =>
    .conj (l.rewrite_with_targetlist tlist) (r.rewrite_with_targetlist tlist)
  | .var i => .var i

/-- Modelled from the spec: rewrite a HAVING conjunct against the aggregated
target list so it can reference aggregate outputs by position. -/
def Expr.rewrite_having_clause (e : Expr) (tlist : List TargetEntry) : Expr :=
  e.rewrite_with_targetlist tlist

/-- A range-table entry: a table id together with the ids of its column
descriptors, in descriptor order. -/
structure RangeTblEntry where
  table_id : Nat
  column_descs : List Nat
deriving DecidableEq, Repr

/-- Statement kinds. -/
inductive SQLStmtType where
  | kSELECT | kINSERT | kUPDATE | kDELETE
deriving DecidableEq, Repr

/-- The analyzed query handed to the planner: statement kind, ordered range
table, ordered target list, optional WHERE / GROUP BY / HAVING / ORDER BY,
optional link to a UNION continuation, and the aggregate count maintained by
the Analyzer.  Only the null-ness of the order-by spec and of the next query
is inspected by the planner, so both are embedded as options over Unit. -/
structure Query where
  stmt_type : SQLStmtType
  rangetable : List RangeTblEntry
  targetlist : List TargetEntry
  where_predicate : Option Expr
  group_by : Option (List Expr)
  having_predicate : Option Expr
  order_by : Option Unit
  next_query : Option Unit
  num_aggs : Nat
deriving DecidableEq, Repr

end Analyzer

namespace Planner

open Analyzer

/-- The failure modes of planning.  A thrown runtime_error surfaces as
notSupported (catchable); a failed assert aborts (assertionFailure);
undefined behaviour such as dereferencing a null plan, unchecked
out-of-bounds vector indexing, or reading an uninitialized variable is
embedded as the trapping errors nullDeref and indexOutOfBounds. -/
inductive PlanError where
  | notSupported (msg : String)
  | assertionFailure
  | nullDeref
  | indexOutOfBounds
deriving DecidableEq, Repr

/-- A Scan node as built by the planner: the base Plan's target list and
quals, the pushdown-eligible simple_quals, the table id, and the ordered
column-id list. -/
structure ScanNode where
  targetlist : List TargetEntry
  quals : List Expr
  simple_quals : List Expr
  table_id : Nat
  col_list : List Nat
deriving DecidableEq, Repr

/-- The plan node variants the current pipeline can construct: a table
scan, a values scan, and an aggregation node over an (optionally null)
child plan. -/
inductive Plan where
  | scan (s : ScanNode)
  | valuesScan (targetlist : List TargetEntry)
  | agg (targetlist : List TargetEntry) (quals : List Expr)
        (child_plan : Option Plan) (groupby_list : List Expr)

/-- Plan::get_targetlist. -/
def Plan.get_targetlist : Plan → List TargetEntry
  | .scan s => s.targetlist
  | .valuesScan t => t
  | .agg t _ _ _ => t

/-- Plan::set_targetlist: replace the node's target list in place. -/
def Plan.set_targetlist : Plan → List TargetEntry → Plan
  | .scan s, t => .scan { s with targetlist := t }
  | .valuesScan _, t => .valuesScan t
  | .agg _ q c g, t => .agg t q c g

/-- Scan::Scan(const RangeTblEntry&): table id copied, col_list populated
with every column descriptor's id in order, all predicate lists empty. -/
def ScanNode.fromRte (rte : RangeTblEntry) : ScanNode :=
  ⟨[], [], [], rte.table_id, rte.column_descs⟩

/-- Scan::add_simple_predicate: push onto simple_quals. -/
def ScanNode.add_simple_predicate (s : ScanNode) (p : Expr) : ScanNode :=
  { s with simple_quals := s.simple_quals ++ [p] }

/-- Plan::add_predicate: push onto quals. -/
def ScanNode.add_predicate (s : ScanNode) (p : Expr) : ScanNode :=
  { s with quals := s.quals ++ [p] }

/-- Plan::add_tle: push onto the target list. -/
def ScanNode.add_tle (s : ScanNode) (t : TargetEntry) : ScanNode :=
  { s with targetlist := s.targetlist ++ [t] }

/-- The range-table entries base scans are built from: all of them, except
that the first entry (the result table) is skipped for INSERT statements. -/
def scan_rtes (q : Query) : List RangeTblEntry :=
  if q.stmt_type = .kINSERT then q.rangetable.drop 1 else q.rangetable

/-- The base scans constructed by the first phase of optimize_scans. -/
def base_scans0 (q : Query) : List ScanNode :=
  (scan_rtes q).map ScanNode.fromRte

/-- One iteration of the scan-predicate attachment loop of optimize_scans:
if the predicate normalizes into a simple predicate, that normalized form is
pushed onto simple_quals of the scan at the returned range-table index;
otherwise a deep copy of the predicate is pushed onto quals of the scan at
the first (minimum) element of the predicate's referenced-range-table-index
set.  Unchecked vector indexing and the uninitialized read on an empty
index set are embedded as trapping errors. -/
def attach_pred (scans : List ScanNode) (p : Expr) : Except PlanError (List ScanNode) :=
  match p.normalize_simple_predicate with
  | some (sp, i) =>
    if h : i < scans.length then
      .ok (scans.set i ((scans.get ⟨i, h⟩).add_simple_predicate sp))
    else .error .indexOutOfBounds
  | none =>
    match p.rte_idx_set with
    | [] => .error .indexOutOfBounds
    | i :: _ =>
      if h : i < scans.length then
        .ok (scans.set i ((scans.get ⟨i, h⟩).add_predicate p.deep_copy))
      else .error .indexOutOfBounds

/-- The scan-predicate attachment loop of optimize_scans. -/
def attach_preds (scans : List ScanNode) : List Expr → Except PlanError (List ScanNode)
  | [] => .ok scans
  | p :: ps =>
    match attach_pred scans p with
    | .ok scans1 => attach_preds scans1 ps
    | .error e => .error e

/-- Collect column variables of a list of expressions into the threaded
ordered set, in order. -/
def collect_exprs_colvars (es : List Expr) (s : List ColumnVar) : List ColumnVar :=
  es.foldl (fun s e => e.collect_column_var s) s

/-- The deduplicated column-variable set optimize_scans builds: columns of
the target-list expressions, then of the join predicates, then of the
group-by list (if any), then of the HAVING predicate (if any). -/
def collect_query_colvars (q : Query) (join_predicates : List Expr) : List ColumnVar :=
  let s := collect_exprs_colvars (q.targetlist.map TargetEntry.expr) []
  let s := collect_exprs_colvars join_predicates s
  let s :=
    match q.group_by with
    | none => s
    | some gs => collect_exprs_colvars gs s
  match q.having_predicate with
  | none => s
  | some h => h.collect_column_var s

/-- The anonymous TargetEntry wrapping a copy of a collected column
reference. -/
def mkCvTle (cv : ColumnVar) : TargetEntry :=
  ⟨"", .colvar cv.rte_idx cv.col_id⟩

/-- The column-materialization loop of optimize_scans: for each collected
column variable, append the anonymous TargetEntry to the target list of the
scan at the column's range-table index (unchecked indexing embedded as a
trapping error). -/
def add_colvar_tles (scans : List ScanNode) : List ColumnVar → Except PlanError (List ScanNode)
  | [] => .ok scans
  | cv :: cvs =>
    if h : cv.rte_idx < scans.length then
      add_colvar_tles
        (scans.set cv.rte_idx ((scans.get ⟨cv.rte_idx, h⟩).add_tle (mkCvTle cv))) cvs
    else .error .indexOutOfBounds

/-- Optimizer::optimize_scans: build base scans (skipping the INSERT result
slot), decompose the WHERE predicate three ways, attach the scan
predicates, and materialize every referenced column on its owning scan.
Returns the scans together with the retained join and constant predicate
groups. -/
def optimize_scans (q : Query) :
    Except PlanError (List ScanNode × List Expr × List Expr) :=
  let scans0 := base_scans0 q
  let groups :=
    match q.where_predicate with
    | none => ([], [], [])
    | some w => w.group_predicates
  match attach_preds scans0 groups.1 with
  | .error e => .error e
  | .ok scans1 =>
    match add_colvar_tles scans1 (collect_query_colvars q groups.2.1) with
    | .error e => .error e
    | .ok scans2 => .ok (scans2, groups.2.1, groups.2.2)

/-- Optimizer::optimize_joins: zero scans leave no current plan, a single
scan becomes the current plan, two or more scans throw. -/
def optimize_joins (base_scans : List ScanNode) : Except PlanError (Option Plan) :=
  match base_scans with
  | [] => .ok none
  | [s] => .ok (some (.scan s))
  | _ => .error (.notSupported "joins are not supported yet.")

/-- cur_plan->get_targetlist() with the null dereference made explicit. -/
def cur_targetlist : Option Plan → Except PlanError (List TargetEntry)
  | none => .error .nullDeref
  | some p => .ok p.get_targetlist

/-- The target-list rewriting loop of optimize_aggs: each entry's
expression is rewritten with the current plan's target list as child target
list (the plan is dereferenced inside the loop, as in the source). -/
def rewrite_agg_tles (cur_plan : Option Plan) :
    List TargetEntry → Except PlanError (List TargetEntry)
  | [] => .ok []
  | tle :: rest =>
    match cur_targetlist cur_plan with
    | .error e => .error e
    | .ok ctl =>
      match rewrite_agg_tles cur_plan rest with
      | .error e => .error e
      | .ok rest1 => .ok (⟨tle.resname, tle.expr.rewrite_with_child_targetlist ctl⟩ :: rest1)

/-- The group-by rewriting loop of optimize_aggs. -/
def rewrite_groupby (cur_plan : Option Plan) :
    List Expr → Except PlanError (List Expr)
  | [] => .ok []
  | e :: rest =>
    match cur_targetlist cur_plan with
    | .error er => .error er
    | .ok ctl =>
      match rewrite_groupby cur_plan rest with
      | .error er => .error er
      | .ok rest1 => .ok (e.rewrite_with_child_targetlist ctl :: rest1)

/-- Optimizer::optimize_aggs: a no-op when the query has no aggregate and
no HAVING predicate; otherwise rewrite the target list and group-by list
against the current plan, decompose HAVING and assert it contains only
single-group conjuncts, rewrite the surviving conjuncts against the new
target list, and make a new AggPlan over the previous current plan the
current plan. -/
def optimize_aggs (q : Query) (cur_plan : Option Plan) :
    Except PlanError (Option Plan) :=
  if q.num_aggs = 0 ∧ q.having_predicate = none then .ok cur_plan
  else
    match rewrite_agg_tles cur_plan q.targetlist with
    | .error e => .error e
    | .ok agg_tlist =>
      let groupbyRes : Except PlanError (List Expr) :=
        match q.group_by with
        | none => Except.ok ([] : List Expr)
        | some gs => rewrite_groupby cur_plan gs
      match groupbyRes with
      | .error e => .error e
      | .ok groupby_list =>
        let havingRes : Except PlanError (List Expr) :=
          match q.having_predicate with
          | none => Except.ok ([] : List Expr)
          | some h =>
            let groups := h.group_predicates
            if groups.2.1 = [] ∧ groups.2.2 = [] then
              Except.ok (groups.1.map (fun p => p.rewrite_having_clause agg_tlist))
            else .error .assertionFailure
        match havingRes with
        | .error e => .error e
        | .ok having_quals =>
          .ok (some (.agg agg_tlist having_quals cur_plan groupby_list))

/-- Optimizer::process_targetlist: rewrite the statement's target list
against the current plan (or deep-copy it when there is no plan), then
either create a ValuesScan holding it or replace the current plan's target
list in place with it. -/
def process_targetlist (q : Query) (cur_plan : Option Plan) : Plan :=
  let final_tlist := q.targetlist.map (fun tle =>
    match cur_plan with
    | none => (⟨tle.resname, tle.expr.deep_copy⟩ : TargetEntry)
    | some cp => ⟨tle.resname, tle.expr.rewrite_with_targetlist cp.get_targetlist⟩)
  match cur_plan with
  | none => .valuesScan final_tlist
  | some cp => cp.set_targetlist final_tlist

/-- Optimizer::optimize_current_query: scans, joins, aggregation, final
projection. -/
def optimize_current_query (q : Query) : Except PlanError Plan :=
  match optimize_scans q with
  | .error e => .error e
  | .ok r =>
    match optimize_joins r.1 with
    | .error e => .error e
    | .ok cur =>
      match optimize_aggs q cur with
      | .error e => .error e
      | .ok cur2 => .ok (process_targetlist q cur2)

/-- Optimizer::optimize_orderby: throws whenever the statement has an
ORDER BY. -/
def optimize_orderby (q : Query) : Except PlanError Unit :=
  match q.order_by with
  | some _ => .error (.notSupported "order by not supported yet.")
  | none => .ok ()

/-- Optimizer::optimize_query: reject UNION queries, run the
per-query pipeline, then run the order-by stage when an ORDER BY is
present. -/
def optimize_query (q : Query) : Except PlanError Plan :=
  match q.next_query with
  | some _ => .error (.notSupported "UNION queries are not supported yet.")
  | none =>
    match optimize_current_query q with
    | .error e => .error e
    | .ok p =>
      match q.order_by with
      | some _ =>
        (match optimize_orderby q with
         | .error e => .error e
         | .ok _ => .ok p)
      | none => .ok p

/-- The RootPlan wrapping the finished plan tree with statement-kind
metadata. -/
structure RootPlan where
  plan : Plan
  stmt_type : SQLStmtType
  result_table_id : Nat
  result_col_list : List Nat

/-- Optimizer::optimize: for INSERT, read the destination table id and
column ids off the first range-table entry (front() of an empty list is a
trap); UPDATE and DELETE fail the assert; then run the query pipeline and
wrap the result in a RootPlan. -/
def optimize (q : Query) : Except PlanError RootPlan :=
  let destRes : Except PlanError (Nat × List Nat) :=
    match q.stmt_type with
    | .kSELECT => Except.ok ((0 : Nat), ([] : List Nat))
    | .kINSERT =>
      match q.rangetable with
      | [] => .error .nullDeref
      | rte :: _ => .ok (rte.table_id, rte.column_descs)
    | .kUPDATE => .error .assertionFailure
    | .kDELETE => .error .assertionFailure
  match destRes with
  | .error e => .error e
  | .ok dest =>
    match optimize_query q with
    | .error e => .error e
    | .ok plan => .ok ⟨plan, q.stmt_type, dest.1, dest.2⟩

/-- The group-by expression list of a query, empty when absent. -/
def groupby_src (q : Query) : List Expr :=
  match q.group_by with
  | none => []
  | some gs => gs

/-- The HAVING predicate as a (zero- or one-element) expression list. -/
def having_exprs (q : Query) : List Expr :=
  match q.having_predicate with
  | none => []
  | some h => [h]

/-- The multiset of all column references a query's planner-visible clauses
contain (target list, join predicates, group-by list, HAVING), with
duplicates: the reference list the deduplicated set is judged against. -/
def referenced_colvars (q : Query) (jp : List Expr) : List ColumnVar :=
  (q.targetlist.map TargetEntry.expr).flatMap Expr.colvars_raw
  ++ jp.flatMap Expr.colvars_raw
  ++ (groupby_src q).flatMap Expr.colvars_raw
  ++ (having_exprs q).flatMap Expr.colvars_raw

/-- Whether a planning outcome is a (catchable) NotSupported failure. -/
def failed_not_supported (r : Except PlanError RootPlan) : Bool :=
  match r with
  | .error (.notSupported _) => true
  | _ => false

/-- Nesting depth of aggregation nodes above the plan's leaf, used to show a
freshly constructed AggPlan is distinct from its own child. -/
def Plan.depth : Plan → Nat
  | .scan _ => 0
  | .valuesScan _ => 0
  | .agg _ _ none _ => 1
  | .agg _ _ (some c) _ => c.depth + 1

/- Concrete inputs used by witnesses and counterexamples. -/

/-- A first concrete range-table entry (table 10, columns 1 and 2). -/
def rte_a : RangeTblEntry := ⟨10, [1, 2]⟩

/-- A second concrete range-table entry (table 20, column 1). -/
def rte_b : RangeTblEntry := ⟨20, [1]⟩

/-- A third concrete range-table entry (table 30, column 1). -/
def rte_c : RangeTblEntry := ⟨30, [1]⟩

/-- A HAVING predicate comparing columns of two different tables. -/
def cross_having : Expr := .cmp .eq (.colvar 0 1) (.colvar 1 1)

/-- A HAVING predicate referencing no table at all. -/
def const_having : Expr := .cmp .eq (.const 1) (.const 1)

/-- Two-table SELECT with a cross-table HAVING conjunct. -/
def q5x : Query :=
  ⟨.kSELECT, [rte_a, rte_b], [⟨"a", .colvar 0 1⟩], none, none, some cross_having,
   none, none, 0⟩

/-- Single-table SELECT with a constant-classified HAVING conjunct. -/
def q5w : Query :=
  ⟨.kSELECT, [rte_a], [⟨"a", .colvar 0 1⟩], none, none, some const_having,
   none, none, 0⟩

/-- Single-table SELECT with a constant-classified HAVING conjunct and an
ORDER BY. -/
def q6x : Query :=
  ⟨.kSELECT, [rte_a], [⟨"a", .colvar 0 1⟩], none, none, some const_having,
   some (), none, 0⟩

/-- Constant-only SELECT with an ORDER BY. -/
def q6w : Query :=
  ⟨.kSELECT, [], [⟨"x", .const 2⟩], none, none, none, some (), none, 0⟩

/-- Aggregate query with no FROM-clause table. -/
def q9x : Query :=
  ⟨.kSELECT, [], [⟨"n", .aggexpr 0 (.const 1)⟩], none, none, none, none, none, 1⟩

/-- INSERT whose range table has three entries and whose target list
references range-table index 1. -/
def q10x : Query :=
  ⟨.kINSERT, [rte_a, rte_b, rte_c], [⟨"b", .colvar 1 1⟩], none, none, none,
   none, none, 0⟩

/-- A plain VALUES-style INSERT into the table of the first range-table
entry. -/
def qIns : Query :=
  ⟨.kINSERT, [rte_a], [⟨"", .const 7⟩], none, none, none, none, none, 0⟩

/-- The RootPlan that planning qIns produces. -/
def rpIns : RootPlan := ⟨.valuesScan [⟨"", .const 7⟩], .kINSERT, 10, [1, 2]⟩

/-- SELECT referencing the same column in both the target list and the
group-by list. -/
def q8w : Query :=
  ⟨.kSELECT, [rte_a], [⟨"a", .colvar 0 1⟩], none, some [.colvar 0 1], none,
   none, none, 0⟩

/-- Single-table aggregate query with a group-by column. -/
def q3w : Query :=
  ⟨.kSELECT, [rte_a], [⟨"s", .aggexpr 1 (.colvar 0 1)⟩], none,
   some [.colvar 0 2], none, none, none, 1⟩

/-- The single-scan current plan that planning q3w reaches aggregation
with. -/
def cp3 : Plan := .scan ⟨[⟨"", .colvar 0 1⟩, ⟨"", .colvar 0 2⟩], [], [], 10, [1, 2]⟩

/-- The two fresh base scans used by the predicate-attachment witness. -/
def scansW : List ScanNode := [ScanNode.fromRte rte_a, ScanNode.fromRte rte_b]

/-- A normalizable simple predicate on table index 1. -/
def pW : Expr := .cmp .lt (.colvar 1 1) (.const 5)

/-- scansW after attaching pW. -/
def scansW1 : List ScanNode := [ScanNode.fromRte rte_a, ⟨[], [], [pW], 20, [1]⟩]

/-- A column-vs-column single-table predicate that fails normalization. -/
def pW2 : Expr := .cmp .eq (.colvar 0 1) (.colvar 0 2)

/-- scansW after attaching pW2. -/
def scansW2 : List ScanNode := [⟨[], [pW2], [], 10, [1, 2]⟩, ScanNode.fromRte rte_b]

/-- The single base scan the dedup witness starts from. -/
def scans8 : List ScanNode := [ScanNode.fromRte rte_a]

/-- scans8 after column materialization for q8w. -/
def scans8N : List ScanNode := [⟨[⟨"", .colvar 0 1⟩], [], [], 10, [1, 2]⟩]

/-- The rewritten target list the aggregation stage builds over a non-null
child plan. -/
def agg_tlist_of (q : Query) (cp : Plan) : List TargetEntry :=
  q.targetlist.map (fun tle =>
    ⟨tle.resname, tle.expr.rewrite_with_child_targetlist cp.get_targetlist⟩)

/-- The rewritten group-by list the aggregation stage builds over a
non-null child plan. -/
def groupby_of (q : Query) (cp : Plan) : List Expr :=
  (groupby_src q).map (fun e => e.rewrite_with_child_targetlist cp.get_targetlist)

/-- The single-group conjuncts of a query's HAVING predicate, empty when
absent. -/
def having_src (q : Query) : List Expr :=
  match q.having_predicate with
  | none => []
  | some hv => hv.group_predicates.1

/-- The rewritten HAVING conjunct list the aggregation stage builds over a
non-null child plan (for a HAVING that passes the decomposition assert). -/
def having_quals_of (q : Query) (cp : Plan) : List Expr :=
  (having_src q).map (fun p => p.rewrite_having_clause (agg_tlist_of q cp))

/-- The RootPlan a successful constant-only SELECT would produce; used to
instantiate the never-succeeds conclusion of the order-by theorem. -/
def rpW6 : RootPlan := ⟨.valuesScan [⟨"x", .const 2⟩], .kSELECT, 0, []⟩

/- Helper lemmas. -/

theorem plan_ne_agg_child (p : Plan) (t : List TargetEntry) (ql g : List Expr) :
    Plan.agg t ql (some p) g ≠ p := by
  intro h
  have hd := congrArg Plan.depth h
  simp [Plan.depth] at hd

theorem rewrite_agg_tles_some (cp : Plan) (l : List TargetEntry) :
    rewrite_agg_tles (some cp) l
      = .ok (l.map (fun tle =>
          ⟨tle.resname, tle.expr.rewrite_with_child_targetlist cp.get_targetlist⟩)) := by
  induction l with
  | nil => rfl
  | cons t ts ih => simp [rewrite_agg_tles, cur_targetlist, ih]

theorem rewrite_groupby_some (cp : Plan) (l : List Expr) :
    rewrite_groupby (some cp) l
      = .ok (l.map (fun e => e.rewrite_with_child_targetlist cp.get_targetlist)) := by
  induction l with
  | nil => rfl
  | cons e es ih => simp [rewrite_groupby, cur_targetlist, ih]

/-- C2: Join assembly follows the single-scan-only policy: with zero base
scans the stage produces no plan (the current plan is null); with exactly
one base scan that scan becomes the current plan unchanged; with two or
more base scans planning fails with a NotSupported (catchable) error. -/
theorem c2_join_assembly_policy (scans : List ScanNode) :
    (scans = [] → optimize_joins scans = .ok none)
  ∧ (∀ s, scans = [s] → optimize_joins scans = .ok (some (.scan s)))
  ∧ (2 ≤ scans.length →
      optimize_joins scans = .error (.notSupported "joins are not supported yet.")) := by
  refine ⟨?_, ?_, ?_⟩
  · rintro rfl; rfl
  · rintro s rfl; rfl
  · intro h2
    match scans, h2 with
    | s1 :: s2 :: rest, _ => rfl

/-- Witness for C2: the three join-assembly cases at concrete scan lists. -/
theorem c2_join_assembly_policy_witness :
    optimize_joins ([] : List ScanNode) = .ok none
  ∧ optimize_joins [ScanNode.fromRte rte_a] = .ok (some (.scan (ScanNode.fromRte rte_a)))
  ∧ optimize_joins [ScanNode.fromRte rte_a, ScanNode.fromRte rte_b]
      = .error (.notSupported "joins are not supported yet.") :=
  ⟨(c2_join_assembly_policy []).1 rfl,
   (c2_join_assembly_policy [ScanNode.fromRte rte_a]).2.1 _ rfl,
   (c2_join_assembly_policy [ScanNode.fromRte rte_a, ScanNode.fromRte rte_b]).2.2
     (by decide)⟩

/-- C4: process_targetlist with no current plan deep-copies every target
expression without rewriting and creates a ValuesScan holding the result;
with a current plan it rewrites every target expression against the plan's
target list and replaces the plan's target list in place with the result. -/
theorem c4_final_projection (q : Query) (cur : Option Plan) :
    (cur = none → process_targetlist q cur
        = .valuesScan (q.targetlist.map (fun tle => ⟨tle.resname, tle.expr.deep_copy⟩)))
  ∧ (∀ cp, cur = some cp → process_targetlist q cur
        = cp.set_targetlist (q.targetlist.map (fun tle =>
            ⟨tle.resname, tle.expr.rewrite_with_targetlist cp.get_targetlist⟩)))
  ∧ (∀ (p : Plan) (t : List TargetEntry), (p.set_targetlist t).get_targetlist = t) := by
  refine ⟨?_, ?_, ?_⟩
  · rintro rfl; rfl
  · rintro cp rfl; rfl
  · intro p t; cases p <;> rfl

/-- Witness for C4: both projection branches at concrete inputs. -/
theorem c4_final_projection_witness :
    process_targetlist q6w none = .valuesScan [⟨"x", .const 2⟩]
  ∧ process_targetlist q6w (some (.valuesScan [])) = .valuesScan [⟨"x", .const 2⟩] :=
  ⟨(c4_final_projection q6w none).1 rfl,
   (c4_final_projection q6w (some (.valuesScan []))).2.1 _ rfl⟩

/-- C7: for an INSERT statement the produced RootPlan's destination table id
and ordered destination column id list are read from the first range-table
entry, and base-scan construction skips that first entry, building scans
only from the remaining entries. -/
theorem c7_insert_destination (q : Query) (rte0 : RangeTblEntry)
    (rest : List RangeTblEntry)
    (hstmt : q.stmt_type = .kINSERT) (hrt : q.rangetable = rte0 :: rest) :
    (∀ rp, optimize q = .ok rp →
        rp.result_table_id = rte0.table_id ∧ rp.result_col_list = rte0.column_descs)
  ∧ base_scans0 q = rest.map ScanNode.fromRte := by
  constructor
  · intro rp h
    unfold optimize at h
    rw [hstmt, hrt] at h
    cases hq : optimize_query q with
    | error e => rw [hq] at h; simp at h
    | ok p =>
      rw [hq] at h
      injection h with h2
      rw [← h2]
      exact ⟨rfl, rfl⟩
  · unfold base_scans0 scan_rtes
    rw [hstmt, hrt]
    simp

/-- Witness for C7: planning the concrete INSERT qIns yields a RootPlan
whose destination metadata comes from the first range-table entry, and no
base scan is built from that entry. -/
theorem c7_insert_destination_witness :
    rpIns.result_table_id = rte_a.table_id
  ∧ rpIns.result_col_list = rte_a.column_descs
  ∧ base_scans0 qIns = ([] : List RangeTblEntry).map ScanNode.fromRte :=
  ⟨((c7_insert_destination qIns rte_a [] rfl rfl).1 rpIns rfl).1,
   ((c7_insert_destination qIns rte_a [] rfl rfl).1 rpIns rfl).2,
   (c7_insert_destination qIns rte_a [] rfl rfl).2⟩

/-- Counterexample to C10 as stated: for the INSERT q10x, the column
reference naming range-table index 1 (table 20) is materialized on
base_scans[1], which was constructed from range-table entry 2 (table 30),
so base_scans[i] is not the scan constructed from range-table entry i. -/
theorem c10_counterexample :
    optimize_scans q10x
      = .ok ([⟨[], [], [], 20, [1]⟩, ⟨[⟨"", .colvar 1 1⟩], [], [], 30, [1]⟩], [], [])
  ∧ (q10x.rangetable.get ⟨1, by decide⟩).table_id = 20
  ∧ (20 : Nat) ≠ 30 :=
  ⟨rfl, rfl, by decide⟩

/-- C10 (amended): for non-INSERT statements the base-scans vector has one
scan per range-table entry and the scan at index i is exactly the Scan
constructed from range-table entry i, so every in-range reference to index
i selects that entry's scan; for INSERT statements the vector is shifted by
the skipped result slot. -/
theorem c10_rte_scan_correspondence (q : Query) (hstmt : q.stmt_type ≠ .kINSERT) :
    (base_scans0 q).length = q.rangetable.length
  ∧ ∀ i (hi : i < q.rangetable.length) (hi2 : i < (base_scans0 q).length),
      (base_scans0 q).get ⟨i, hi2⟩ = ScanNode.fromRte (q.rangetable.get ⟨i, hi⟩) := by
  have hrt : scan_rtes q = q.rangetable := by
    unfold scan_rtes; rw [if_neg hstmt]
  constructor
  · simp [base_scans0, hrt]
  · intro i hi hi2
    simp [base_scans0, hrt]

/-- Witness for C10 (amended): the correspondence at the concrete
single-table SELECT q5w. -/
theorem c10_rte_scan_correspondence_witness :
    (base_scans0 q5w).length = q5w.rangetable.length
  ∧ (base_scans0 q5w).get ⟨0, by decide⟩ = ScanNode.fromRte rte_a :=
  ⟨(c10_rte_scan_correspondence q5w (by decide)).1,
   (c10_rte_scan_correspondence q5w (by decide)).2 0 (by decide) (by decide)⟩

/-- Counterexample to C9 as stated: the aggregate query q9x with no
FROM-clause table reaches the aggregation stage with a null current plan
and planning traps on the null-plan dereference. -/
theorem c9_counterexample :
    q9x.num_aggs ≠ 0 ∧ base_scans0 q9x = [] ∧ optimize q9x = .error .nullDeref :=
  ⟨by decide, rfl, rfl⟩

/-- C9 (amended): whenever the aggregation stage runs with a non-null
current plan (in particular whenever join assembly folded at least one base
scan), its access to the plan's target list is defined: the stage either
returns a plan or fails the HAVING-decomposition assert, and never
dereferences a null plan; the null-plan case is reachable only for a query
with no base scan. -/
theorem c9_agg_access_defined (q : Query) (cp : Plan) (e : PlanError)
    (h : optimize_aggs q (some cp) = .error e) : e = .assertionFailure := by
  by_cases hc : q.num_aggs = 0 ∧ q.having_predicate = none
  · simp [optimize_aggs, hc] at h
  · cases hgb : q.group_by with
    | none =>
      cases hhv : q.having_predicate with
      | none =>
        have hna : ¬ q.num_aggs = 0 := fun h0 => hc ⟨h0, hhv⟩
        simp [optimize_aggs, hc, hna, rewrite_agg_tles_some, hgb, hhv] at h
      | some hv =>
        by_cases hg : hv.group_predicates.2.1 = [] ∧ hv.group_predicates.2.2 = []
        · simp [optimize_aggs, hc, rewrite_agg_tles_some, hgb, hhv, hg] at h
        · simp [optimize_aggs, hc, rewrite_agg_tles_some, hgb, hhv, hg] at h
          exact h.symm
    | some gs =>
      cases hhv : q.having_predicate with
      | none =>
        have hna : ¬ q.num_aggs = 0 := fun h0 => hc ⟨h0, hhv⟩
        simp [optimize_aggs, hc, hna, rewrite_agg_tles_some, rewrite_groupby_some,
          hgb, hhv] at h
      | some hv =>
        by_cases hg : hv.group_predicates.2.1 = [] ∧ hv.group_predicates.2.2 = []
        · simp [optimize_aggs, hc, rewrite_agg_tles_some, rewrite_groupby_some,
            hgb, hhv, hg] at h
        · simp [optimize_aggs, hc, rewrite_agg_tles_some, rewrite_groupby_some,
            hgb, hhv, hg] at h
          exact h.symm

/-- Witness for C9 (amended): the aggregation stage over a concrete
non-null plan either returns or fails the HAVING assert; at q5w it fails
the assert and the theorem identifies the error as assertionFailure. -/
theorem c9_agg_access_defined_witness :
    optimize_aggs q5w (some (.scan ⟨[⟨"", .colvar 0 1⟩], [], [], 10, [1, 2]⟩))
      = .error .assertionFailure
  ∧ (PlanError.assertionFailure : PlanError) = .assertionFailure :=
  ⟨rfl,
   c9_agg_access_defined q5w (.scan ⟨[⟨"", .colvar 0 1⟩], [], [], 10, [1, 2]⟩)
     .assertionFailure rfl⟩

/-- C3: the aggregation stage is a no-op leaving the current plan untouched
precisely when the query declares no aggregate and no HAVING predicate;
otherwise (here: with a non-null current plan and a HAVING that passes the
decomposition assert) it replaces the current plan with a new AggPlan whose
child is the previous current plan, whose target list is the query target
list rewritten against the child's target list, whose quals are the
rewritten HAVING conjuncts, and whose group-by list is the rewritten
group-by list. -/
theorem c3_aggregation_stage (q : Query) (cur : Option Plan) :
    (q.num_aggs = 0 ∧ q.having_predicate = none → optimize_aggs q cur = .ok cur)
  ∧ (∀ cp, cur = some cp → ¬(q.num_aggs = 0 ∧ q.having_predicate = none) →
      (∀ hv, q.having_predicate = some hv →
          hv.group_predicates.2.1 = [] ∧ hv.group_predicates.2.2 = []) →
      optimize_aggs q cur
        = .ok (some (.agg (agg_tlist_of q cp) (having_quals_of q cp) cur (groupby_of q cp)))
      ∧ optimize_aggs q cur ≠ .ok cur) := by
  constructor
  · intro hc
    simp [optimize_aggs, hc]
  · rintro cp rfl hc hclean
    have heq : optimize_aggs q (some cp)
        = .ok (some (.agg (agg_tlist_of q cp) (having_quals_of q cp)
            (some cp) (groupby_of q cp))) := by
      cases hgb : q.group_by with
      | none =>
        cases hhv : q.having_predicate with
        | none =>
          have hna : ¬ q.num_aggs = 0 := fun h0 => hc ⟨h0, hhv⟩
          simp [optimize_aggs, hna, rewrite_agg_tles_some, hgb, hhv,
            agg_tlist_of, having_quals_of, groupby_of, having_src, groupby_src]
        | some hv =>
          simp [optimize_aggs, hc, rewrite_agg_tles_some, hgb, hhv,
            hclean hv hhv, agg_tlist_of, having_quals_of, groupby_of,
            having_src, groupby_src]
      | some gs =>
        cases hhv : q.having_predicate with
        | none =>
          have hna : ¬ q.num_aggs = 0 := fun h0 => hc ⟨h0, hhv⟩
          simp [optimize_aggs, hna, rewrite_agg_tles_some, rewrite_groupby_some,
            hgb, hhv, agg_tlist_of, having_quals_of, groupby_of,
            having_src, groupby_src]
        | some hv =>
          simp [optimize_aggs, hc, rewrite_agg_tles_some, rewrite_groupby_some,
            hgb, hhv, hclean hv hhv, agg_tlist_of, having_quals_of, groupby_of,
            having_src, groupby_src]
    refine ⟨heq, ?_⟩
    rw [heq]
    intro hbad
    injection hbad with h1
    injection h1 with h2
    exact plan_ne_agg_child cp (agg_tlist_of q cp) (having_quals_of q cp)
      (groupby_of q cp) h2

/-- Witness for C3: the no-op branch at q6w and the AggPlan construction at
the concrete aggregate query q3w with its single-scan current plan. -/
theorem c3_aggregation_stage_witness :
    optimize_aggs q6w none = .ok none
  ∧ optimize_aggs q3w (some cp3)
      = .ok (some (.agg (agg_tlist_of q3w cp3) (having_quals_of q3w cp3)
          (some cp3) (groupby_of q3w cp3)))
  ∧ agg_tlist_of q3w cp3 = [⟨"s", .aggexpr 1 (.var 0)⟩]
  ∧ having_quals_of q3w cp3 = []
  ∧ groupby_of q3w cp3 = [.var 1] :=
  ⟨(c3_aggregation_stage q6w none).1 ⟨rfl, rfl⟩,
   ((c3_aggregation_stage q3w (some cp3)).2 cp3 rfl (by decide)
     (fun hv hh => nomatch hh)).1,
   rfl, rfl, rfl⟩

/-- The aggregation stage fails the decomposition assert whenever HAVING
yields a join- or constant-classified conjunct (with a non-null current
plan). -/
theorem optimize_aggs_having_violation (q : Query) (cp : Plan) (hv : Expr)
    (hh : q.having_predicate = some hv)
    (hbad : ¬(hv.group_predicates.2.1 = [] ∧ hv.group_predicates.2.2 = [])) :
    optimize_aggs q (some cp) = .error .assertionFailure := by
  have hc : ¬(q.num_aggs = 0 ∧ q.having_predicate = none) := by
    rintro ⟨h0, hn⟩
    rw [hh] at hn
    cases hn
  cases hgb : q.group_by with
  | none =>
    simp [optimize_aggs, hc, rewrite_agg_tles_some, hgb, hh, hbad]
  | some gs =>
    simp [optimize_aggs, hc, rewrite_agg_tles_some, rewrite_groupby_some,
      hgb, hh, hbad]

/-- Counterexample to C5 as stated: q5x's HAVING decomposes into a
join-classified conjunct, yet planning fails with the catchable
NotSupported from join assembly (two base scans), not fatally. -/
theorem c5_counterexample :
    q5x.having_predicate = some cross_having
  ∧ cross_having.group_predicates.2.1 ≠ []
  ∧ optimize q5x = .error (.notSupported "joins are not supported yet.")
  ∧ failed_not_supported (optimize q5x) = true :=
  ⟨rfl, by decide, rfl, rfl⟩

/-- C5 (amended): for every query that reaches the aggregation stage (no
UNION, SELECT statement, scans succeed, exactly one base scan) and whose
HAVING decomposes into at least one join- or constant-classified conjunct,
planning fails with the fatal assertionFailure, a failure kind distinct
from every catchable NotSupported error. -/
theorem c5_having_contract_violation (q : Query) (hv : Expr) (s : ScanNode)
    (jp cps : List Expr)
    (hstmt : q.stmt_type = .kSELECT)
    (hu : q.next_query = none)
    (hscans : optimize_scans q = .ok ([s], jp, cps))
    (hh : q.having_predicate = some hv)
    (hbad : ¬(hv.group_predicates.2.1 = [] ∧ hv.group_predicates.2.2 = [])) :
    optimize q = .error .assertionFailure
  ∧ ∀ msg, (PlanError.assertionFailure : PlanError) ≠ .notSupported msg := by
  constructor
  · have hagg := optimize_aggs_having_violation q (.scan s) hv hh hbad
    have hcq : optimize_current_query q = .error .assertionFailure := by
      simp [optimize_current_query, hscans, optimize_joins, hagg]
    have hqv : optimize_query q = .error .assertionFailure := by
      simp [optimize_query, hu, hcq]
    simp [optimize, hstmt, hqv]
  · intro msg h
    cases h

/-- Witness for C5 (amended): the single-table query q5w with a
constant-classified HAVING conjunct fails fatally. -/
theorem c5_having_contract_violation_witness :
    optimize q5w = .error .assertionFailure :=
  (c5_having_contract_violation q5w const_having
    ⟨[⟨"", .colvar 0 1⟩], [], [], 10, [1, 2]⟩ [] [] rfl rfl rfl rfl
    (by decide)).1

/-- Counterexample to C6 as stated: q6x specifies an ORDER BY, yet planning
fails fatally in the aggregation stage (run before the order-by check), not
with NotSupported. -/
theorem c6_counterexample :
    q6x.order_by = some ()
  ∧ optimize q6x = .error .assertionFailure
  ∧ failed_not_supported (optimize q6x) = false :=
  ⟨rfl, rfl, rfl⟩

/-- C6 (amended): for every query specifying an ORDER BY, planning never
succeeds; and whenever the stages before the order-by check succeed (no
UNION and optimize_current_query returns a plan), planning fails with the
NotSupported order-by error. -/
theorem c6_order_by_not_supported (q : Query) (ho : q.order_by = some ()) :
    (∀ rp, optimize q ≠ .ok rp)
  ∧ (∀ p, q.next_query = none → optimize_current_query q = .ok p →
      optimize_query q = .error (.notSupported "order by not supported yet.")) := by
  have hob : optimize_orderby q = .error (.notSupported "order by not supported yet.") := by
    simp [optimize_orderby, ho]
  have hq2 : ∀ p, q.next_query = none → optimize_current_query q = .ok p →
      optimize_query q = .error (.notSupported "order by not supported yet.") := by
    intro p hu hcq
    simp [optimize_query, hu, hcq, ho, hob]
  refine ⟨?_, hq2⟩
  have hqn : ∀ p, optimize_query q ≠ .ok p := by
    intro p hok
    unfold optimize_query at hok
    cases hu : q.next_query with
    | some u => rw [hu] at hok; exact Except.noConfusion hok
    | none =>
      rw [hu] at hok
      cases hcq : optimize_current_query q with
      | error e => rw [hcq] at hok; exact Except.noConfusion hok
      | ok p0 =>
        rw [hcq, ho, hob] at hok
        exact Except.noConfusion hok
  intro rp h
  unfold optimize at h
  cases hst : q.stmt_type with
  | kSELECT =>
    rw [hst] at h
    cases hqv : optimize_query q with
    | error e => rw [hqv] at h; exact Except.noConfusion h
    | ok p => exact hqn p hqv
  | kINSERT =>
    rw [hst] at h
    cases hrt : q.rangetable with
    | nil => rw [hrt] at h; exact Except.noConfusion h
    | cons rte rts =>
      rw [hrt] at h
      cases hqv : optimize_query q with
      | error e => rw [hqv] at h; exact Except.noConfusion h
      | ok p => exact hqn p hqv
  | kUPDATE => rw [hst] at h; exact Except.noConfusion h
  | kDELETE => rw [hst] at h; exact Except.noConfusion h

/-- Witness for C6 (amended): at the concrete q6w the earlier stages
succeed and planning fails with the order-by NotSupported error. -/
theorem c6_order_by_not_supported_witness :
    optimize_query q6w = .error (.notSupported "order by not supported yet.")
  ∧ optimize q6w ≠ .ok rpW6 :=
  ⟨(c6_order_by_not_supported q6w rfl).2 (.valuesScan [⟨"x", .const 2⟩]) rfl rfl,
   (c6_order_by_not_supported q6w rfl).1 rpW6⟩

/-- C1: one step of the scan-predicate attachment loop.  A scan predicate
that normalizes into a simple single-column-vs-constant comparison is
attached (in normalized form) to the simple_quals of the scan at the
normalization's range-table index and to no scan's quals; a scan predicate
that fails normalization is attached, as a deep copy, to the quals of the
scan whose index is the first element of the predicate's
referenced-range-table-index set, and to no scan's simple_quals. -/
theorem c1_scan_predicate_attachment (scans scansNew : List ScanNode) (p : Expr)
    (hok : attach_pred scans p = .ok scansNew) :
    scansNew.length = scans.length
  ∧ (∀ sp i, p.normalize_simple_predicate = some (sp, i) →
      i < scans.length
      ∧ ∀ j (hj : j < scans.length) (hj2 : j < scansNew.length),
          scansNew[j].quals = scans[j].quals
        ∧ scansNew[j].simple_quals
            = (if j = i then scans[j].simple_quals ++ [sp] else scans[j].simple_quals)
        ∧ scansNew[j].targetlist = scans[j].targetlist)
  ∧ (p.normalize_simple_predicate = none →
      ∃ i rest, p.rte_idx_set = i :: rest
      ∧ i < scans.length
      ∧ ∀ j (hj : j < scans.length) (hj2 : j < scansNew.length),
          scansNew[j].simple_quals = scans[j].simple_quals
        ∧ scansNew[j].quals
            = (if j = i then scans[j].quals ++ [p.deep_copy] else scans[j].quals)
        ∧ scansNew[j].targetlist = scans[j].targetlist) := by
  unfold attach_pred at hok
  cases hn : p.normalize_simple_predicate with
  | some spi =>
    obtain ⟨sp0, i0⟩ := spi
    simp only [hn] at hok
    by_cases hi : i0 < scans.length
    · rw [dif_pos hi] at hok
      injection hok with hok
      subst hok
      refine ⟨by simp, ?_, ?_⟩
      · intro sp i hsome
        injection hsome with h2
        injection h2 with h3 h4
        subst h3
        subst h4
        refine ⟨hi, ?_⟩
        intro j hj hj2
        by_cases hji : j = i0
        · subst hji
          simp [List.getElem_set, ScanNode.add_simple_predicate, List.get_eq_getElem]
        · simp [List.getElem_set, Ne.symm hji, hji, ScanNode.add_simple_predicate]
      · intro hnone
        exact Option.noConfusion hnone
    · rw [dif_neg hi] at hok
      exact Except.noConfusion hok
  | none =>
    simp only [hn] at hok
    cases hset : p.rte_idx_set with
    | nil =>
      rw [hset] at hok
      exact Except.noConfusion hok
    | cons i0 rest0 =>
      simp only [hset] at hok
      by_cases hi : i0 < scans.length
      · rw [dif_pos hi] at hok
        injection hok with hok
        subst hok
        refine ⟨by simp, ?_, ?_⟩
        · intro sp i hsome
          exact Option.noConfusion hsome
        · intro _
          refine ⟨i0, rest0, rfl, hi, ?_⟩
          intro j hj hj2
          by_cases hji : j = i0
          · subst hji
            simp [List.getElem_set, ScanNode.add_predicate, List.get_eq_getElem]
          · simp [List.getElem_set, Ne.symm hji, hji, ScanNode.add_predicate]
      · rw [dif_neg hi] at hok
        exact Except.noConfusion hok

/-- Witness for C1: both attachment branches at concrete inputs — the
normalizable predicate pW lands only in simple_quals of scan 1, the
non-normalizable pW2 lands only in quals of scan 0. -/
theorem c1_scan_predicate_attachment_witness :
    (scansW1.get ⟨1, by decide⟩).simple_quals = [pW]
  ∧ (scansW1.get ⟨1, by decide⟩).quals = []
  ∧ (scansW2.get ⟨0, by decide⟩).quals = [pW2]
  ∧ (scansW2.get ⟨0, by decide⟩).simple_quals = [] := by
  have h1 := (c1_scan_predicate_attachment scansW scansW1 pW rfl).2.1 pW 1 rfl
  have h2 := (c1_scan_predicate_attachment scansW scansW2 pW2 rfl).2.2 rfl
  obtain ⟨i, rest, hset, hi, hall⟩ := h2
  have hi0 : i = 0 := by
    have : pW2.rte_idx_set = [0] := by decide
    rw [this] at hset
    injection hset with h3 h4
    exact h3.symm
  subst hi0
  refine ⟨?_, ?_, ?_, ?_⟩
  · exact ((h1.2 1 (by decide) (by decide)).2.1)
  · exact ((h1.2 1 (by decide) (by decide)).1)
  · exact ((hall 0 (by decide) (by decide)).2.1)
  · exact ((hall 0 (by decide) (by decide)).1)

theorem columnVar_lt_irrefl (a : ColumnVar) : ¬ ColumnVar.lt a a := by
  rcases a with ⟨r, c⟩
  simp [ColumnVar.lt]

theorem columnVar_lt_trans {a b c : ColumnVar}
    (h1 : ColumnVar.lt a b) (h2 : ColumnVar.lt b c) : ColumnVar.lt a c := by
  rcases a with ⟨ar, ac⟩
  rcases b with ⟨br, bc⟩
  rcases c with ⟨cr, cc⟩
  simp [ColumnVar.lt] at *
  omega

theorem columnVar_lt_resolve (a b : ColumnVar)
    (h1 : ¬ ColumnVar.lt a b) (h2 : ¬ a = b) : ColumnVar.lt b a := by
  rcases a with ⟨ar, ac⟩
  rcases b with ⟨br, bc⟩
  simp [ColumnVar.lt, ColumnVar.mk.injEq] at *
  omega

theorem mem_cvInsert (a cv : ColumnVar) (l : List ColumnVar) :
    a ∈ cvInsert cv l ↔ a = cv ∨ a ∈ l := by
  induction l with
  | nil => simp [cvInsert]
  | cons x xs ih =>
    by_cases h1 : ColumnVar.lt cv x
    · simp [cvInsert, h1]
    · by_cases h2 : cv = x
      · subst h2
        simp [cvInsert, h1]
      · simp [cvInsert, h1, h2, ih]
        tauto

theorem pairwise_cvInsert (cv : ColumnVar) (l : List ColumnVar)
    (h : l.Pairwise ColumnVar.lt) : (cvInsert cv l).Pairwise ColumnVar.lt := by
  induction l with
  | nil => simp [cvInsert]
  | cons x xs ih =>
    rcases List.pairwise_cons.mp h with ⟨hx, hxs⟩
    by_cases h1 : ColumnVar.lt cv x
    · simp only [cvInsert, if_pos h1]
      refine List.pairwise_cons.mpr ⟨?_, h⟩
      intro b hb
      rcases List.mem_cons.mp hb with rfl | hb2
      · exact h1
      · exact columnVar_lt_trans h1 (hx b hb2)
    · by_cases h2 : cv = x
      · simp only [cvInsert, if_neg h1, if_pos h2]
        exact h
      · simp only [cvInsert, if_neg h1, if_neg h2]
        refine List.pairwise_cons.mpr ⟨?_, ih hxs⟩
        intro b hb
        rcases (mem_cvInsert b cv xs).mp hb with rfl | hb2
        · exact columnVar_lt_resolve _ _ h1 h2
        · exact hx b hb2

theorem pairwise_collect_column_var (e : Expr) (s : List ColumnVar)
    (h : s.Pairwise ColumnVar.lt) :
    (e.collect_column_var s).Pairwise ColumnVar.lt := by
  induction e generalizing s with
  | colvar r c => exact pairwise_cvInsert _ _ h
  | const v => exact h
  | star => exact h
  | aggexpr k a iha => exact iha s h
  | cmp op l r ihl ihr => exact ihr _ (ihl _ h)
  | conj l r ihl ihr => exact ihr _ (ihl _ h)
  | var i => exact h

theorem mem_collect_column_var (e : Expr) (s : List ColumnVar) (a : ColumnVar) :
    a ∈ e.collect_column_var s ↔ a ∈ e.colvars_raw ∨ a ∈ s := by
  induction e generalizing s with
  | colvar r c => simp [Expr.collect_column_var, Expr.colvars_raw, mem_cvInsert]
  | const v => simp [Expr.collect_column_var, Expr.colvars_raw]
  | star => simp [Expr.collect_column_var, Expr.colvars_raw]
  | aggexpr k a iha => simp [Expr.collect_column_var, Expr.colvars_raw, iha]
  | cmp op l r ihl ihr =>
    simp [Expr.collect_column_var, Expr.colvars_raw, ihr, ihl]
    tauto
  | conj l r ihl ihr =>
    simp [Expr.collect_column_var, Expr.colvars_raw, ihr, ihl]
    tauto
  | var i => simp [Expr.collect_column_var, Expr.colvars_raw]

theorem collect_exprs_nil (s : List ColumnVar) : collect_exprs_colvars [] s = s := rfl

theorem collect_exprs_cons (e : Expr) (es : List Expr) (s : List ColumnVar) :
    collect_exprs_colvars (e :: es) s = collect_exprs_colvars es (e.collect_column_var s) :=
  rfl

theorem pairwise_collect_exprs (es : List Expr) (s : List ColumnVar)
    (h : s.Pairwise ColumnVar.lt) :
    (collect_exprs_colvars es s).Pairwise ColumnVar.lt := by
  induction es generalizing s with
  | nil => exact h
  | cons e es ih => exact ih _ (pairwise_collect_column_var e s h)

theorem mem_collect_exprs (es : List Expr) (s : List ColumnVar) (a : ColumnVar) :
    a ∈ collect_exprs_colvars es s ↔ (∃ e ∈ es, a ∈ e.colvars_raw) ∨ a ∈ s := by
  induction es generalizing s with
  | nil => simp [collect_exprs_nil]
  | cons e es ih =>
    rw [collect_exprs_cons, ih, mem_collect_column_var]
    constructor
    · rintro (⟨e1, he1, ha⟩ | ha | hs)
      · exact .inl ⟨e1, List.mem_cons_of_mem _ he1, ha⟩
      · exact .inl ⟨e, List.mem_cons_self e es, ha⟩
      · exact .inr hs
    · rintro (⟨e1, he1, ha⟩ | hs)
      · rcases List.mem_cons.mp he1 with rfl | he2
        · exact .inr (.inl ha)
        · exact .inl ⟨e1, he2, ha⟩
      · exact .inr (.inr hs)

theorem collect_query_colvars_eq (q : Query) (jp : List Expr) :
    collect_query_colvars q jp
      = collect_exprs_colvars (having_exprs q)
          (collect_exprs_colvars (groupby_src q)
            (collect_exprs_colvars jp
              (collect_exprs_colvars (q.targetlist.map TargetEntry.expr) []))) := by
  obtain ⟨st, rt, tl, wp, gb, hv, ob, nq, na⟩ := q
  cases gb <;> cases hv <;> rfl

theorem collect_query_colvars_nodup (q : Query) (jp : List Expr) :
    (collect_query_colvars q jp).Nodup := by
  have hp : (collect_query_colvars q jp).Pairwise ColumnVar.lt := by
    rw [collect_query_colvars_eq]
    exact pairwise_collect_exprs _ _ (pairwise_collect_exprs _ _
      (pairwise_collect_exprs _ _ (pairwise_collect_exprs _ _ (by simp))))
  exact hp.imp (fun hab heq => absurd (heq ▸ hab) (columnVar_lt_irrefl _))

theorem mem_collect_query_colvars (q : Query) (jp : List Expr) (a : ColumnVar) :
    a ∈ collect_query_colvars q jp ↔ a ∈ referenced_colvars q jp := by
  have hgen : ∀ es : List Expr,
      (∃ e ∈ es, a ∈ e.colvars_raw) ↔ a ∈ es.flatMap Expr.colvars_raw := by
    intro es
    simp [List.mem_flatMap]
  rw [collect_query_colvars_eq]
  rw [mem_collect_exprs, mem_collect_exprs, mem_collect_exprs, mem_collect_exprs]
  rw [hgen, hgen, hgen, hgen]
  unfold referenced_colvars
  simp only [List.mem_append, List.not_mem_nil, or_false]
  tauto

theorem mkCvTle_injective : Function.Injective mkCvTle := by
  intro a b h
  rcases a with ⟨ar, ac⟩
  rcases b with ⟨br, bc⟩
  simp [mkCvTle, TargetEntry.mk.injEq, Expr.colvar.injEq] at h
  obtain ⟨rfl, rfl⟩ := h
  rfl

theorem add_colvar_tles_spec (l : List ColumnVar) (scans scansNew : List ScanNode)
    (hok : add_colvar_tles scans l = .ok scansNew) :
    scansNew.length = scans.length
  ∧ ∀ j (hj : j < scans.length) (hj2 : j < scansNew.length),
      scansNew[j]
        = { scans[j] with
            targetlist := scans[j].targetlist
              ++ (l.filter (fun cv => cv.rte_idx == j)).map mkCvTle } := by
  induction l generalizing scans with
  | nil =>
    unfold add_colvar_tles at hok
    injection hok with hok
    subst hok
    refine ⟨rfl, ?_⟩
    intro j hj hj2
    simp
  | cons cv cvs ih =>
    unfold add_colvar_tles at hok
    by_cases hi : cv.rte_idx < scans.length
    · rw [dif_pos hi] at hok
      obtain ⟨hlen, hall⟩ := ih _ hok
      have hlen2 : scansNew.length = scans.length := by
        rw [hlen]
        simp
      refine ⟨hlen2, ?_⟩
      intro j hj hj2
      have hj3 : j < (scans.set cv.rte_idx
          ((scans.get ⟨cv.rte_idx, hi⟩).add_tle (mkCvTle cv))).length := by
        simp [hj]
      have h4 := hall j hj3 hj2
      by_cases hji : cv.rte_idx = j
      · subst hji
        rw [h4]
        simp [List.getElem_set, ScanNode.add_tle, List.filter_cons,
          List.get_eq_getElem]
      · have hbeq : (cv.rte_idx == j) = false := by
          simp [hji]
        rw [h4]
        simp [List.getElem_set, hji, List.filter_cons, hbeq]
    · rw [dif_neg hi] at hok
      exact Except.noConfusion hok

/-- C8: the column-reference set optimize_scans builds is deduplicated by
(table index, column id) — it has no duplicates and contains exactly the
columns referenced across the target list, the join predicates, the
group-by list and the HAVING predicate — and the materialization loop
appends, per collected column, exactly one anonymous TargetEntry wrapping a
copy of the column reference to the target list of the scan at the
column's range-table index. -/
theorem c8_column_dedup (q : Query) (jp : List Expr) (scans scansNew : List ScanNode)
    (hok : add_colvar_tles scans (collect_query_colvars q jp) = .ok scansNew) :
    (collect_query_colvars q jp).Nodup
  ∧ (∀ cv, cv ∈ collect_query_colvars q jp ↔ cv ∈ referenced_colvars q jp)
  ∧ scansNew.length = scans.length
  ∧ (∀ j (hj : j < scans.length) (hj2 : j < scansNew.length),
      scansNew[j]
        = { scans[j] with
            targetlist := scans[j].targetlist
              ++ ((collect_query_colvars q jp).filter
                    (fun cv => cv.rte_idx == j)).map mkCvTle })
  ∧ (∀ cv ∈ collect_query_colvars q jp,
      (((collect_query_colvars q jp).filter
          (fun c => c.rte_idx == cv.rte_idx)).map mkCvTle).count (mkCvTle cv) = 1) := by
  obtain ⟨hlen, hall⟩ := add_colvar_tles_spec _ _ _ hok
  refine ⟨collect_query_colvars_nodup q jp,
    fun cv => mem_collect_query_colvars q jp cv, hlen, hall, ?_⟩
  intro cv hcv
  have hf : ((collect_query_colvars q jp).filter
      (fun c => c.rte_idx == cv.rte_idx)).Nodup :=
    (collect_query_colvars_nodup q jp).filter _
  have hm : cv ∈ (collect_query_colvars q jp).filter
      (fun c => c.rte_idx == cv.rte_idx) := by
    rw [List.mem_filter]
    exact ⟨hcv, by simp⟩
  exact List.count_eq_one_of_mem (hf.map mkCvTle_injective)
    (List.mem_map_of_mem mkCvTle hm)

/-- Witness for C8: at the concrete q8w, which references column (0, 1) in
both the target list and the group-by list, the collected set is
duplicate-free, contains that column, and contributes exactly one anonymous
TargetEntry for it. -/
theorem c8_column_dedup_witness :
    (collect_query_colvars q8w []).Nodup
  ∧ (⟨0, 1⟩ : ColumnVar) ∈ referenced_colvars q8w []
  ∧ (((collect_query_colvars q8w []).filter (fun c => c.rte_idx == 0)).map
      mkCvTle).count (mkCvTle ⟨0, 1⟩) = 1 := by
  have h := c8_column_dedup q8w [] scans8 scans8N rfl
  exact ⟨h.1, (h.2.1 ⟨0, 1⟩).mp (by decide), h.2.2.2.2 ⟨0, 1⟩ (by decide)⟩

end Planner
